import Mathlib

/-!
Verification of the cache-refresh subsystem of `src/app/database.py`
(class `Database`): the paginated fetch loop, per-series category
enrichment, the drop-and-rebuild of the `markets` table, the refresh
policy (`_refresh_markets_if_needed`), the read facade (`fetch_markets`)
and the append-only archive (`archive`).

Modelling conventions:
* Timestamps are integers counting seconds (`datetime` differences are
  compared against `timedelta(days=1)`, i.e. 86400 seconds).
* A market record is projected to the fields the verified properties
  depend on (`ticker`, `event_ticker`, `category`); JSON fields that may
  be absent are `Option`s (`m.get(...)`).
* HTTP traffic is modelled by the sequence of page responses the remote
  end would serve (each either a transport failure or a JSON body with a
  `markets` batch and an optional `cursor`), and by an oracle mapping a
  series key to the outcome of its category lookup.
* SQLite tables are lists of rows plus the list of column names;
  `INSERT OR IGNORE` on the primary-key column is modelled by
  `insertOrIgnore`.
-/

namespace KalshiDB

/-- One market record, projected to the fields the verified claims
depend on.  `event_ticker` is optional because the code reads it with
`m.get` with an empty-string default; `category` is the field written by the
enrichment stage. -/
structure Market where
  ticker : String
  event_ticker : Option String
  category : String
deriving DecidableEq, Repr

/-- A transport-level failure of one HTTP request: a non-success status
(`resp.raise_for_status()`) or a connection/timeout failure
(`requests.get` raising). -/
inductive TransportError where
  | httpError (statusCode : Nat)
  | connectionError
deriving DecidableEq, Repr

/-- The JSON body of one successful listing page: the `markets` batch
plus the optional continuation `cursor` (the cursor field of the response body). -/
structure PageData where
  markets : List Market
  cursor : Option String
deriving DecidableEq, Repr

/-- The outcome the remote end serves for one listing request. -/
abbrev PageResp := Except TransportError PageData

/-- One listing request as issued by the fetch loop:
query parameters limit=1000 and status=open, plus the cursor parameter
when the current token is truthy. -/
structure ListingRequest where
  limit : Nat
  statusFilter : String
  cursorParam : Option String
deriving DecidableEq, Repr

/-- Python truthiness of the cursor token: `None` and the empty string are falsy. -/
def cursorTruthy : Option String → Bool
  | none => false
  | some s => !(s == "")

/-- Build the query parameters for one listing request. -/
def mkRequest (tok : Option String) : ListingRequest :=
  { limit := 1000, statusFilter := "open",
    cursorParam := if cursorTruthy tok then tok else none }

/-- The `while True` pagination loop of `_fetch_and_rebuild`
(database.py lines 169-185), run against the sequence of responses the
remote end serves.  Returns the requests issued (in order) and either
the accumulated market list or the first transport error.  Exhausting
the supplied responses while the loop still wants a page is a
connection failure. -/
def fetchLoop (tok : Option String) : List PageResp → List ListingRequest × Except TransportError (List Market)
  | [] => ([mkRequest tok], Except.error TransportError.connectionError)
  | Except.error e :: _ => ([mkRequest tok], Except.error e)
  | Except.ok pg :: rest =>
    if cursorTruthy pg.cursor then
      let r := fetchLoop pg.cursor rest
      (mkRequest tok :: r.1, r.2.map (fun ms => pg.markets ++ ms))
    else
      ([mkRequest tok], Except.ok pg.markets)

section PaginationLemmas

/-- Helper for the pagination proof: a run of pages each carrying a
truthy cursor except the last consumes exactly the supplied responses. -/
lemma fetchLoop_all_pages (pages : List PageData) : ∀ (tok : Option String),
    pages ≠ [] →
    (∀ pg ∈ pages.dropLast, cursorTruthy pg.cursor = true) →
    (∀ pg ∈ pages.getLast?.toList, cursorTruthy pg.cursor = false) →
    fetchLoop tok (pages.map Except.ok) =
      (mkRequest tok :: pages.dropLast.map (fun pg => mkRequest pg.cursor),
       Except.ok (pages.map PageData.markets).flatten) := by
  induction pages with
  | nil => intro tok hne _ _; exact absurd rfl hne
  | cons pg rest ih =>
    intro tok _ hmid hlast
    cases rest with
    | nil =>
      have hfalse : cursorTruthy pg.cursor = false := by
        have : pg ∈ ([pg] : List PageData).getLast?.toList := by simp
        exact hlast pg this
      simp [fetchLoop, hfalse]
    | cons pg2 rest2 =>
      have htrue : cursorTruthy pg.cursor = true := by
        apply hmid
        simp [List.dropLast]
      have hmid2 : ∀ q ∈ (pg2 :: rest2).dropLast, cursorTruthy q.cursor = true := by
        intro q hq
        apply hmid
        simp [List.dropLast, hq]
      have hlast2 : ∀ q ∈ (pg2 :: rest2).getLast?.toList, cursorTruthy q.cursor = false := by
        intro q hq
        apply hlast
        simpa [List.getLast?_cons_cons] using hq
      have hrec := ih pg.cursor (by simp) hmid2 hlast2
      rw [List.map_cons, fetchLoop, hrec]
      simp [htrue, Except.map, List.dropLast]

end PaginationLemmas

/-!
## SQLite `INSERT OR IGNORE` on a primary-key column

Both the `markets` rebuild (`INSERT OR IGNORE INTO markets`, primary key
`ticker`) and the archive (`INSERT OR IGNORE INTO selected_markets`,
primary key `market_event_ticker`) insert rows one at a time, silently
dropping a row whose key is already present.
-/

section InsertOrIgnore

variable {α : Type} (key : α → String)

/-- One `INSERT OR IGNORE` execution against a table whose primary key
is `key`: a no-op when the key is already present, an append otherwise. -/
def insertOrIgnore (tbl : List α) (r : α) : List α :=
  if tbl.any (fun x => key x == key r) then tbl else tbl ++ [r]

/-- The rows a run of `INSERT OR IGNORE` statements adds to a table
whose key set is `seen`: the first row of each key not yet seen, in
input order. -/
def newInserts : List String → List α → List α
  | _, [] => []
  | seen, r :: rs =>
    if seen.any (fun s => s == key r) then newInserts seen rs
    else r :: newInserts (seen ++ [key r]) rs

lemma any_map_key (tbl : List α) (c : String) :
    (tbl.map key).any (fun s => s == c) = tbl.any (fun x => key x == c) := by
  induction tbl with
  | nil => rfl
  | cons a l ih => simp only [List.map_cons, List.any_cons, ih]

/-- Folding `INSERT OR IGNORE` over the input rows appends exactly the
not-yet-seen rows. -/
lemma foldl_insertOrIgnore (rs : List α) : ∀ tbl : List α,
    rs.foldl (insertOrIgnore key) tbl = tbl ++ newInserts key (tbl.map key) rs := by
  induction rs with
  | nil => intro tbl; simp [newInserts]
  | cons r rs ih =>
    intro tbl
    cases h : tbl.any (fun x => key x == key r) with
    | true =>
      have h2 : (tbl.map key).any (fun s => s == key r) = true := by
        rw [any_map_key]; exact h
      rw [List.foldl_cons]
      rw [show insertOrIgnore key tbl r = tbl by simp [insertOrIgnore, h]]
      rw [ih tbl, newInserts, h2]
      simp
    | false =>
      have h2 : (tbl.map key).any (fun s => s == key r) = false := by
        rw [any_map_key]; exact h
      rw [List.foldl_cons]
      rw [show insertOrIgnore key tbl r = tbl ++ [r] by simp [insertOrIgnore, h]]
      rw [ih (tbl ++ [r]), newInserts, h2]
      simp

lemma any_beq_iff_mem (l : List String) (c : String) :
    l.any (fun s => s == c) = true ↔ c ∈ l := by
  simp [List.any_eq_true]

lemma not_mem_of_any_beq_false {l : List String} {c : String}
    (h : l.any (fun s => s == c) = false) : ¬ c ∈ l := by
  intro hm
  rw [(any_beq_iff_mem l c).mpr hm] at h
  exact Bool.noConfusion h

/-- Every row actually inserted had a key that was not yet seen. -/
lemma mem_newInserts_not_seen (rs : List α) : ∀ (seen : List String) (r : α),
    r ∈ newInserts key seen rs → seen.any (fun s => s == key r) = false := by
  induction rs with
  | nil => intro seen r h; simp [newInserts] at h
  | cons a l ih =>
    intro seen r h
    cases ht : seen.any (fun s => s == key a) with
    | true =>
      rw [newInserts, if_pos ht] at h
      exact ih seen r h
    | false =>
      have ht' : ¬ ((seen.any fun s => s == key a) = true) := by rw [ht]; simp
      rw [newInserts, if_neg ht'] at h
      rcases List.mem_cons.mp h with rfl | h
      · exact ht
      · have h2 := ih (seen ++ [key a]) r h
        rw [List.any_append] at h2
        exact (Bool.or_eq_false_iff.mp h2).1

/-- The inserted rows have pairwise distinct keys. -/
lemma nodup_keys_newInserts (rs : List α) : ∀ seen : List String,
    ((newInserts key seen rs).map key).Nodup := by
  induction rs with
  | nil => intro seen; simp [newInserts]
  | cons a l ih =>
    intro seen
    cases ht : seen.any (fun s => s == key a) with
    | true =>
      rw [newInserts, if_pos ht]
      exact ih seen
    | false =>
      have ht' : ¬ ((seen.any fun s => s == key a) = true) := by rw [ht]; simp
      rw [newInserts, if_neg ht', List.map_cons, List.nodup_cons]
      refine ⟨?_, ih (seen ++ [key a])⟩
      intro hmem
      rcases List.mem_map.mp hmem with ⟨x, hx, hkx⟩
      have h2 := mem_newInserts_not_seen key l (seen ++ [key a]) x hx
      rw [List.any_append] at h2
      have h3 := (Bool.or_eq_false_iff.mp h2).2
      simp [hkx] at h3

/-- Rows whose key was already seen are never inserted. -/
lemma filter_newInserts_seen (rs : List α) : ∀ (seen : List String) (t : String),
    seen.any (fun s => s == t) = true →
    (newInserts key seen rs).filter (fun r => key r == t) = [] := by
  intro seen t ht
  rw [List.filter_eq_nil_iff]
  intro r hr hkey
  have h2 := mem_newInserts_not_seen key rs seen r hr
  have hkr : key r = t := by simpa using hkey
  rw [hkr, ht] at h2
  exact Bool.noConfusion h2

/-- For a key not yet seen, the run of inserts keeps exactly the first
input row carrying that key. -/
lemma filter_newInserts (rs : List α) : ∀ (seen : List String) (t : String),
    seen.any (fun s => s == t) = false →
    (newInserts key seen rs).filter (fun r => key r == t)
      = (rs.find? (fun r => key r == t)).toList := by
  induction rs with
  | nil => intro seen t _; simp [newInserts]
  | cons a l ih =>
    intro seen t ht
    cases hk : (key a == t) with
    | true =>
      have hkeq : key a = t := by simpa using hk
      have hseen : ¬ ((seen.any fun s => s == key a) = true) := by
        rw [hkeq, ht]; simp
      rw [newInserts, if_neg hseen]
      have hseen2 : (seen ++ [key a]).any (fun s => s == t) = true := by
        rw [List.any_append]
        simp [hkeq]
      have hnil := filter_newInserts_seen key l (seen ++ [key a]) t hseen2
      simp [hk, hnil]
    | false =>
      cases hs : seen.any (fun s => s == key a) with
      | true =>
        rw [newInserts, if_pos hs]
        rw [ih seen t ht]
        simp [hk]
      | false =>
        have hs' : ¬ ((seen.any fun s => s == key a) = true) := by rw [hs]; simp
        rw [newInserts, if_neg hs']
        have ht2 : (seen ++ [key a]).any (fun s => s == t) = false := by
          rw [List.any_append, ht]
          simp [hk]
        simp [hk]
        exact ih (seen ++ [key a]) t ht2

/-- Every input row's key is present after the run (either it was seen
already or its row got inserted). -/
lemma key_covered_newInserts (rs : List α) : ∀ (seen : List String) (r : α),
    r ∈ rs →
    seen.any (fun s => s == key r) = true ∨ key r ∈ (newInserts key seen rs).map key := by
  induction rs with
  | nil => intro seen r h; simp at h
  | cons a l ih =>
    intro seen r hr
    cases hs : seen.any (fun s => s == key a) with
    | true =>
      rcases List.mem_cons.mp hr with rfl | hr2
      · exact Or.inl hs
      · rcases ih seen r hr2 with h | h
        · exact Or.inl h
        · right
          rw [newInserts, if_pos hs]
          exact h
    | false =>
      have hs' : ¬ ((seen.any fun s => s == key a) = true) := by rw [hs]; simp
      rcases List.mem_cons.mp hr with rfl | hr2
      · right
        rw [newInserts, if_neg hs']
        simp
      · rcases ih (seen ++ [key a]) r hr2 with h | h
        · rw [List.any_append] at h
          rcases Bool.or_eq_true_iff.mp h with h2 | h2
          · exact Or.inl h2
          · right
            rw [newInserts, if_neg hs']
            have : key a = key r := by simpa using h2
            simp [this]
        · right
          rw [newInserts, if_neg hs', List.map_cons, List.mem_cons]
          exact Or.inr h

/-- The number of inserted rows is the number of distinct unseen keys in
the input. -/
lemma length_newInserts (rs : List α) : ∀ seen : List String,
    (newInserts key seen rs).length =
      ((rs.map key).toFinset.filter (fun t => ¬ t ∈ seen)).card := by
  induction rs with
  | nil => intro seen; simp [newInserts]
  | cons a l ih =>
    intro seen
    rw [List.map_cons, List.toFinset_cons]
    cases hs : seen.any (fun s => s == key a) with
    | true =>
      have hmem : key a ∈ seen := (any_beq_iff_mem seen (key a)).mp hs
      rw [newInserts, if_pos hs]
      rw [ih seen, Finset.filter_insert]
      simp [hmem]
    | false =>
      have hs' : ¬ ((seen.any fun s => s == key a) = true) := by rw [hs]; simp
      have hnmem : ¬ key a ∈ seen := not_mem_of_any_beq_false hs
      rw [newInserts, if_neg hs', List.length_cons]
      rw [ih (seen ++ [key a])]
      have hset : ((l.map key).toFinset.filter (fun t => ¬ t ∈ seen ++ [key a]))
          = ((l.map key).toFinset.filter (fun t => ¬ t ∈ seen)).erase (key a) := by
        ext x
        simp only [Finset.mem_filter, Finset.mem_erase, List.mem_append,
          List.mem_singleton]
        tauto
      rw [hset, Finset.filter_insert]
      simp only [hnmem, not_false_iff, if_pos]
      by_cases hin : key a ∈ (l.map key).toFinset.filter (fun t => ¬ t ∈ seen)
      · rw [Finset.insert_eq_self.mpr hin]
        rw [Finset.card_erase_of_mem hin]
        have hpos : 0 < ((l.map key).toFinset.filter (fun t => ¬ t ∈ seen)).card :=
          Finset.card_pos.mpr ⟨key a, hin⟩
        omega
      · rw [Finset.erase_eq_self.mpr hin]
        rw [Finset.card_insert_of_not_mem hin]

/-- `find?` returns the head of `filter`. -/
lemma find?_eq_head?_filter (p : α → Bool) (l : List α) :
    l.find? p = (l.filter p).head? := by
  induction l with
  | nil => rfl
  | cons a l ih =>
    cases h : p a with
    | true => rw [List.find?_cons_of_pos _ h, List.filter_cons_of_pos h]; rfl
    | false =>
      rw [List.find?_cons_of_neg _ (show ¬ p a = true by simp [h]),
        List.filter_cons_of_neg (show ¬ p a = true by simp [h]), ih]

end InsertOrIgnore


/-!
## Cache store state

The cache database holds a `markets` table (or not, before the first
rebuild) and a `metadata` key/value table whose only relevant entry is
`last_refresh`.  `_refresh_markets_if_needed` first ensures the
`metadata` table exists (a no-op on this abstraction: an empty metadata
table and a missing one both mean `lastRefresh = none`).
-/

/-- The `markets` table: its column names (from `PRAGMA table_info`) and
its rows. -/
structure MarketsTable where
  cols : List String
  rows : List Market
deriving DecidableEq, Repr

/-- The observable cache-store state: the `markets` table if present,
and the parsed `metadata` entry `last_refresh` if present (seconds). -/
structure CacheState where
  markets : Option MarketsTable
  lastRefresh : Option Int
deriving DecidableEq, Repr

/-- `timedelta(days=1)` in seconds. -/
def secondsPerDay : Int := 86400

/-- The required column subset of the schema adequacy check
(database.py line 120). -/
def requiredCols : List String :=
  ["ticker", "subtitle", "open_time", "close_time", "last_price"]

/-- The full canonical schema created by the rebuild
(database.py `schema_fields`, lines 223-237). -/
def canonicalCols : List String :=
  ["ticker", "event_ticker", "market_type", "title", "subtitle", "yes_sub_title",
   "no_sub_title", "open_time", "close_time", "expected_expiration_time",
   "expiration_time", "latest_expiration_time", "settlement_timer_seconds",
   "status", "response_price_units", "notional_value", "tick_size", "yes_bid",
   "yes_ask", "no_bid", "no_ask", "last_price", "previous_yes_bid",
   "previous_yes_ask", "previous_price", "volume", "volume_24h", "liquidity",
   "open_interest", "result", "can_close_early", "expiration_value", "category",
   "risk_limit_cents", "strike_type", "custom_strike", "rules_primary",
   "rules_secondary"]

/-- The columns the `fetch_markets` SELECT projection references
(database.py lines 50-65). -/
def displaySelectCols : List String :=
  ["title", "subtitle", "ticker", "event_ticker", "rules_primary", "category",
   "open_time", "close_time", "last_price"]

/-- `table_exists` (database.py lines 118-119). -/
def tableExists (st : CacheState) : Bool :=
  st.markets.isSome

/-- `schema_ok`: the table exists and its columns include the required
subset (database.py lines 120-126). -/
def schemaOk (st : CacheState) : Bool :=
  match st.markets with
  | none => false
  | some tbl => requiredCols.all (fun c => tbl.cols.contains c)

/-- `stale = (not last_refresh) or (datetime.now() - last_refresh >
timedelta(days=1))` (database.py line 131). -/
def staleAt (lastRefresh : Option Int) (now : Int) : Bool :=
  match lastRefresh with
  | none => true
  | some t => decide (now - t > secondsPerDay)

/-- `SELECT COUNT(*) FROM markets` (database.py line 139); 0 when the
table is missing. -/
def rowCount (st : CacheState) : Nat :=
  match st.markets with
  | none => 0
  | some tbl => tbl.rows.length

/-!
## Enrichment stage

`_fetch_and_rebuild` lines 189-220: derive a series key per market,
deduplicate the keys, look each up, then write the resulting category
(default empty) back into every market.  A lookup failure is caught and
logged — except that the `if count == 1:` debug log (lines 209-211)
interpolates `category_val` into an f-string; when the FIRST series
lookup raises, `category_val` was never assigned, so the log line itself
raises an uncaught `NameError` that propagates out of the refresh.
-/

/-- The characters of a string that precede its first `'-'`. -/
def charsBeforeDash : List Char → List Char
  | [] => []
  | c :: cs => if c = '-' then [] else c :: charsBeforeDash cs

/-- `m.get('event_ticker', '').split('-', 1)[0]` (database.py line 190):
the prefix of the parent event identifier before the first separator. -/
def seriesOf (m : Market) : String :=
  { data := charsBeforeDash (m.event_ticker.getD "").data }

/-- The outcome of the series-detail request for each series key: the
parsed category on success, or a failure of the request/parse. -/
abbrev SeriesOracle := String → Except Unit String

/-- The series loop from its second iteration on: a failed lookup is
caught, logged and skipped (the series gets no mapping entry). -/
def lookupRest (oracle : SeriesOracle) : List String → List (String × String)
  | [] => []
  | s :: rest =>
    match oracle s with
    | Except.error _ => lookupRest oracle rest
    | Except.ok c => (s, c) :: lookupRest oracle rest

/-- The whole series-lookup loop.  On the first iteration, a failed
lookup leaves `category_val` unassigned and the unconditional
`if count == 1` log f-string then raises `NameError` (database.py lines
209-211), modelled as `Except.error`. -/
def seriesLookupAll (oracle : SeriesOracle) : List String → Except Unit (List (String × String))
  | [] => Except.ok []
  | s :: rest =>
    match oracle s with
    | Except.error _ => Except.error ()
    | Except.ok c => Except.ok ((s, c) :: lookupRest oracle rest)

/-- Write the looked-up category (default the empty string) into every
market (database.py lines 218-220). -/
def applyCategories (mapping : List (String × String)) (ms : List Market) : List Market :=
  ms.map (fun m =>
    { m with category := ((mapping.find? (fun p => p.1 == seriesOf m)).map Prod.snd).getD "" })

/-- The full enrichment stage over the deduplicated series keys. -/
def enrichAll (ms : List Market) (oracle : SeriesOracle) : Except Unit (List Market) :=
  match seriesLookupAll oracle ((ms.map seriesOf).dedup) with
  | Except.error e => Except.error e
  | Except.ok mapping => Except.ok (applyCategories mapping ms)

/-!
## Rebuild and refresh policy
-/

/-- `DROP TABLE IF EXISTS markets; CREATE TABLE markets (...)`, then one
`INSERT OR IGNORE` per record, then `INSERT OR REPLACE` of
`last_refresh` (database.py lines 239-262).  The prior state is
discarded wholesale. -/
def replaceAll (_st : CacheState) (records : List Market) (now : Int) : CacheState :=
  { markets := some { cols := canonicalCols,
                      rows := records.foldl (insertOrIgnore Market.ticker) [] },
    lastRefresh := some now }

/-- How a refresh attempt can fail: a transport error in the listing
loop, or the `NameError` from the first-series debug log. -/
inductive RefreshError where
  | transport (e : TransportError)
  | nameError
deriving DecidableEq, Repr

/-- `_fetch_and_rebuild`: paginate, enrich, then rebuild.  No database
write touches the `markets` table or `last_refresh` before the rebuild
step (the first write is the `DROP TABLE` at line 239), so an error in
either earlier phase leaves the state exactly as it was. -/
def fetchAndRebuild (st : CacheState) (pages : List PageResp) (oracle : SeriesOracle)
    (now : Int) : CacheState × Option RefreshError :=
  match (fetchLoop none pages).2 with
  | Except.error e => (st, some (RefreshError.transport e))
  | Except.ok allMarkets =>
    match enrichAll allMarkets oracle with
    | Except.error _ => (st, some RefreshError.nameError)
    | Except.ok enriched => (replaceAll st enriched now, none)

/-- The observable outcome of `_refresh_markets_if_needed`: the state it
leaves behind, whether it ran the remote fetch, whether it emitted the
offline empty-table warning, and the error it raised, if any. -/
structure RefreshResult where
  state : CacheState
  fetched : Bool
  warnedEmpty : Bool
  error : Option RefreshError
deriving DecidableEq, Repr

/-- `_refresh_markets_if_needed` (database.py lines 104-158), with
`debugLevel` the parsed `DEBUG` environment value. -/
def refreshMarketsIfNeeded (debugLevel : Int) (st : CacheState) (pages : List PageResp)
    (oracle : SeriesOracle) (now : Int) : RefreshResult :=
  if debugLevel == 2 then
    if !(schemaOk st) then
      let r := fetchAndRebuild st pages oracle now
      { state := r.1, fetched := true, warnedEmpty := false, error := r.2 }
    else
      { state := st, fetched := false, warnedEmpty := decide (rowCount st = 0), error := none }
  else
    if debugLevel == 1 || !(tableExists st) || staleAt st.lastRefresh now || !(schemaOk st) then
      let r := fetchAndRebuild st pages oracle now
      { state := r.1, fetched := true, warnedEmpty := false, error := r.2 }
    else
      { state := st, fetched := false, warnedEmpty := false, error := none }

/-- How `fetch_markets` can fail: a propagated refresh error, or the
SELECT failing because the table (or one of its projected columns) is
missing. -/
inductive FetchError where
  | refresh (e : RefreshError)
  | noTable
  | missingColumn
deriving DecidableEq, Repr

/-- `fetch_markets` (database.py lines 46-69): apply the refresh policy,
then run the display SELECT, which fails unless every referenced column
exists. -/
def fetchMarkets (debugLevel : Int) (st : CacheState) (pages : List PageResp)
    (oracle : SeriesOracle) (now : Int) : Except FetchError (List Market) :=
  let res := refreshMarketsIfNeeded debugLevel st pages oracle now
  match res.error with
  | some e => Except.error (FetchError.refresh e)
  | none =>
    match res.state.markets with
    | none => Except.error FetchError.noTable
    | some tbl =>
      if displaySelectCols.all (fun c => tbl.cols.contains c) then Except.ok tbl.rows
      else Except.error FetchError.missingColumn

/-!
## Archive store

`archive` (database.py lines 71-102): `INSERT OR IGNORE` into
`selected_markets` (primary key `market_event_ticker`) row by row,
counting the rows actually inserted via `cur.rowcount`.
-/

/-- One row of the display DataFrame / `selected_markets` table. -/
structure SelectedRow where
  title : String
  sub_title : String
  market_event_ticker : String
  event_title : String
  market_rules_primary : String
  category : String
deriving DecidableEq, Repr

/-- One iteration of the archive loop: `INSERT OR IGNORE`, then
`if cur.rowcount: inserted += 1`. -/
def archiveStep (acc : List SelectedRow × Nat) (r : SelectedRow) : List SelectedRow × Nat :=
  if acc.1.any (fun x => x.market_event_ticker == r.market_event_ticker) then acc
  else (acc.1 ++ [r], acc.2 + 1)

/-- `archive(df)` against an archive table currently holding `tbl`
(created empty on first use): the final table and the returned count. -/
def archive (tbl : List SelectedRow) (df : List SelectedRow) : List SelectedRow × Nat :=
  df.foldl archiveStep (tbl, 0)

section ArchiveLemmas

/-- The archive loop computes the same table as the plain
`INSERT OR IGNORE` fold, and its count is the number of rows added. -/
lemma archive_foldl (df : List SelectedRow) : ∀ (tbl : List SelectedRow) (n : Nat),
    (df.foldl archiveStep (tbl, n)).1
        = df.foldl (insertOrIgnore SelectedRow.market_event_ticker) tbl ∧
    (df.foldl archiveStep (tbl, n)).2 + tbl.length
        = n + (df.foldl (insertOrIgnore SelectedRow.market_event_ticker) tbl).length := by
  induction df with
  | nil => intro tbl n; exact ⟨rfl, rfl⟩
  | cons r df ih =>
    intro tbl n
    cases h : tbl.any (fun x => x.market_event_ticker == r.market_event_ticker) with
    | true =>
      rw [List.foldl_cons, List.foldl_cons]
      rw [show archiveStep (tbl, n) r = (tbl, n) by simp [archiveStep, h]]
      rw [show insertOrIgnore SelectedRow.market_event_ticker tbl r = tbl by
        simp [insertOrIgnore, h]]
      exact ih tbl n
    | false =>
      rw [List.foldl_cons, List.foldl_cons]
      rw [show archiveStep (tbl, n) r = (tbl ++ [r], n + 1) by simp [archiveStep, h]]
      rw [show insertOrIgnore SelectedRow.market_event_ticker tbl r = tbl ++ [r] by
        simp [insertOrIgnore, h]]
      have h2 := ih (tbl ++ [r]) (n + 1)
      refine ⟨h2.1, ?_⟩
      have h3 := h2.2
      rw [List.length_append] at h3
      simp only [List.length_cons, List.length_nil] at h3
      omega

/-- The archive table after one call: the prior rows followed by the
first row of each previously absent key. -/
lemma archive_table_eq (tbl df : List SelectedRow) :
    (archive tbl df).1 = tbl ++ newInserts SelectedRow.market_event_ticker
        (tbl.map SelectedRow.market_event_ticker) df := by
  unfold archive
  rw [(archive_foldl df tbl 0).1, foldl_insertOrIgnore]

/-- The returned count is the number of distinct input keys not already
in the archive. -/
lemma archive_count (tbl df : List SelectedRow) :
    (archive tbl df).2 = ((df.map SelectedRow.market_event_ticker).toFinset.filter
        (fun t => ¬ t ∈ tbl.map SelectedRow.market_event_ticker)).card := by
  have hf := (archive_foldl df tbl 0).2
  have hup := foldl_insertOrIgnore SelectedRow.market_event_ticker df tbl
  have hlen := length_newInserts SelectedRow.market_event_ticker df
    (tbl.map SelectedRow.market_event_ticker)
  have h2 : (archive tbl df).2 + tbl.length
      = 0 + (tbl ++ newInserts SelectedRow.market_event_ticker
          (tbl.map SelectedRow.market_event_ticker) df).length := by
    rw [← hup]
    exact hf
  rw [List.length_append] at h2
  omega

/-- A call whose every row's key is already archived changes nothing and
counts nothing. -/
lemma archive_all_present (df : List SelectedRow) : ∀ (tbl : List SelectedRow) (n : Nat),
    (∀ r ∈ df, tbl.any (fun x => x.market_event_ticker == r.market_event_ticker) = true) →
    df.foldl archiveStep (tbl, n) = (tbl, n) := by
  induction df with
  | nil => intro tbl n _; rfl
  | cons r df ih =>
    intro tbl n hall
    rw [List.foldl_cons]
    have h := hall r (by simp)
    rw [show archiveStep (tbl, n) r = (tbl, n) by simp [archiveStep, h]]
    exact ih tbl n (fun x hx => hall x (by simp [hx]))

end ArchiveLemmas

/-!
## Claim theorems
-/

/-- Concrete cache state whose `markets` table carries exactly the five
required columns and no rows, refreshed at time 0. -/
def stRequiredOnly : CacheState :=
  { markets := some { cols := requiredCols, rows := [] }, lastRefresh := some 0 }

/-- C1: if any listing page request during a refresh attempt fails
(non-success HTTP status or connection/timeout failure), the whole
refresh aborts with a TransportError and, for every prior cache state,
the markets table and the last_refresh metadata entry are exactly as
they were before the attempt — no partial cache replacement is ever
observable. -/
theorem transport_failure_aborts_refresh_unchanged (st : CacheState) (pages : List PageResp)
    (oracle : SeriesOracle) (now : Int) (e : TransportError)
    (h : (fetchLoop none pages).2 = Except.error e) :
    fetchAndRebuild st pages oracle now = (st, some (RefreshError.transport e)) := by
  unfold fetchAndRebuild
  rw [h]

/-- Witness for C1: a first-page HTTP failure aborts the refresh and
leaves a concrete prior state untouched. -/
theorem transport_failure_aborts_refresh_unchanged_witness :
    (fetchLoop none [Except.error (TransportError.httpError 500)]).2
        = Except.error (TransportError.httpError 500) ∧
    fetchAndRebuild stRequiredOnly [Except.error (TransportError.httpError 500)]
        (fun _ => Except.ok "") 0
      = (stRequiredOnly, some (RefreshError.transport (TransportError.httpError 500))) :=
  ⟨rfl, transport_failure_aborts_refresh_unchanged stRequiredOnly
    [Except.error (TransportError.httpError 500)] (fun _ => Except.ok "") 0
    (TransportError.httpError 500) rfl⟩

/-- C4: in offline mode (DEBUG=2), whenever the markets table exists and
contains the five required columns, no remote call is issued regardless
of the last_refresh timestamp, the state is unchanged, no error is
raised, and the only possible surfacing is the non-fatal empty-table
warning. -/
theorem offline_mode_never_fetches (st : CacheState) (pages : List PageResp)
    (oracle : SeriesOracle) (now : Int) (h : schemaOk st = true) :
    refreshMarketsIfNeeded 2 st pages oracle now =
      { state := st, fetched := false, warnedEmpty := decide (rowCount st = 0),
        error := none } := by
  unfold refreshMarketsIfNeeded
  rw [if_pos (show (((2:Int) == 2) = true) by decide)]
  rw [if_neg (show ¬ ((!(schemaOk st)) = true) by rw [h]; simp)]

/-- Witness for C4: a schema-complete empty store, arbitrarily stale, is
served offline without any fetch, with only the empty-table warning. -/
theorem offline_mode_never_fetches_witness :
    schemaOk stRequiredOnly = true ∧
    staleAt stRequiredOnly.lastRefresh 1000000 = true ∧
    refreshMarketsIfNeeded 2 stRequiredOnly [] (fun _ => Except.error ()) 1000000 =
      { state := stRequiredOnly, fetched := false,
        warnedEmpty := decide (rowCount stRequiredOnly = 0), error := none } :=
  ⟨by decide, by decide,
    offline_mode_never_fetches stRequiredOnly [] (fun _ => Except.error ()) 1000000 (by decide)⟩

/-- C5: the snapshot is stale exactly when no last_refresh timestamp
exists or the elapsed time exceeds the 24-hour window; a store refreshed
at time T is fresh at T+24h−1s and stale at T+24h+1s. -/
theorem staleness_window_boundary (t now : Int) :
    staleAt none now = true ∧
    staleAt (some t) now = decide (now - t > secondsPerDay) ∧
    staleAt (some t) (t + secondsPerDay - 1) = false ∧
    staleAt (some t) (t + secondsPerDay + 1) = true := by
  refine ⟨rfl, rfl, ?_, ?_⟩
  · simp only [staleAt, secondsPerDay, decide_eq_false_iff_not]
    omega
  · simp only [staleAt, secondsPerDay, decide_eq_true_eq]
    omega

/-- C2: for a run of n pages in which each page but the last carries a
truthy continuation cursor and the last carries none, the fetch loop
issues exactly n requests — the first without a cursor parameter, each
later one with the previously returned cursor — terminates, and the
accumulated market list is the concatenation of all page batches in
request order. -/
theorem pagination_requests_and_concatenation (pages : List PageData)
    (hne : pages ≠ [])
    (hmid : ∀ pg ∈ pages.dropLast, cursorTruthy pg.cursor = true)
    (hlast : ∀ pg ∈ pages.getLast?.toList, cursorTruthy pg.cursor = false) :
    fetchLoop none (pages.map Except.ok) =
      (mkRequest none :: pages.dropLast.map (fun pg => mkRequest pg.cursor),
       Except.ok (pages.map PageData.markets).flatten) ∧
    (fetchLoop none (pages.map Except.ok)).1.length = pages.length ∧
    mkRequest none = { limit := 1000, statusFilter := "open", cursorParam := none } ∧
    ∀ pg ∈ pages.dropLast,
      mkRequest pg.cursor = { limit := 1000, statusFilter := "open", cursorParam := pg.cursor } := by
  have hmain := fetchLoop_all_pages pages none hne hmid hlast
  refine ⟨hmain, ?_, rfl, ?_⟩
  · have hpos : 0 < pages.length := List.length_pos.mpr hne
    rw [hmain]
    simp only [List.length_cons, List.length_map, List.length_dropLast]
    omega
  · intro pg hpg
    have ht := hmid pg hpg
    simp [mkRequest, ht]

/-- Concrete two-page listing run for the pagination witness. -/
def pagesTwo : List PageData :=
  [{ markets := [{ ticker := "T1", event_ticker := some "A-1", category := "" }],
     cursor := some "c1" },
   { markets := [{ ticker := "T2", event_ticker := some "B-1", category := "" },
                 { ticker := "T3", event_ticker := some "B-2", category := "" }],
     cursor := none }]

/-- Witness for C2: a concrete two-page run satisfies the cursor
hypotheses and the loop issues exactly two requests. -/
theorem pagination_requests_and_concatenation_witness :
    pagesTwo ≠ [] ∧
    (∀ pg ∈ pagesTwo.dropLast, cursorTruthy pg.cursor = true) ∧
    (∀ pg ∈ pagesTwo.getLast?.toList, cursorTruthy pg.cursor = false) ∧
    (fetchLoop none (pagesTwo.map Except.ok)).1.length = pagesTwo.length :=
  ⟨by decide, by decide, by decide,
    (pagination_requests_and_concatenation pagesTwo (by decide) (by decide) (by decide)).2.1⟩

/-- C9: every configured mode value other than force (1) and offline (2)
— including unrecognized values such as 3 — takes exactly the normal
path: refresh iff the markets table is missing, the snapshot is stale,
or the schema check fails. -/
theorem unrecognized_mode_acts_as_normal (d : Int) (st : CacheState) (pages : List PageResp)
    (oracle : SeriesOracle) (now : Int) (h1 : d ≠ 1) (h2 : d ≠ 2) :
    refreshMarketsIfNeeded d st pages oracle now
        = refreshMarketsIfNeeded 0 st pages oracle now ∧
    (refreshMarketsIfNeeded d st pages oracle now).fetched
        = (!(tableExists st) || staleAt st.lastRefresh now || !(schemaOk st)) := by
  have hb1 : (d == 1) = false := by
    cases hb : d == 1 with
    | false => rfl
    | true => exact absurd (by simpa using hb) h1
  have hb2 : ¬ ((d == 2) = true) := by
    intro hb
    exact h2 (by simpa using hb)
  constructor
  · unfold refreshMarketsIfNeeded
    rw [if_neg hb2, if_neg (show ¬ (((0:Int) == 2) = true) by decide)]
    rw [hb1, show ((0:Int) == 1) = false by decide]
  · unfold refreshMarketsIfNeeded
    rw [if_neg hb2, hb1, Bool.false_or]
    cases hc : (!(tableExists st) || staleAt st.lastRefresh now || !(schemaOk st)) with
    | true => rfl
    | false => rfl

/-- Witness for C9: mode 3 on a fresh schema-complete store behaves as
normal mode and performs no fetch. -/
theorem unrecognized_mode_acts_as_normal_witness :
    (3:Int) ≠ 1 ∧ (3:Int) ≠ 2 ∧
    (refreshMarketsIfNeeded 3 stRequiredOnly [] (fun _ => Except.error ()) 100
        = refreshMarketsIfNeeded 0 stRequiredOnly [] (fun _ => Except.error ()) 100 ∧
     (refreshMarketsIfNeeded 3 stRequiredOnly [] (fun _ => Except.error ()) 100).fetched
        = (!(tableExists stRequiredOnly) || staleAt stRequiredOnly.lastRefresh 100
            || !(schemaOk stRequiredOnly))) :=
  ⟨by decide, by decide,
    unrecognized_mode_acts_as_normal 3 stRequiredOnly [] (fun _ => Except.error ()) 100
      (by decide) (by decide)⟩

/-- C6: after every completed rebuild, the markets table has the
canonical schema, contains at most one row per ticker (the first
occurrence in fetch order winning on conflict), fully replaces the prior
snapshot (the result is independent of the prior state), and the
last_refresh entry is set. -/
theorem rebuild_unique_tickers_first_wins (st st2 : CacheState) (records : List Market)
    (now : Int) :
    ∃ tbl : MarketsTable, (replaceAll st records now).markets = some tbl ∧
      tbl.cols = canonicalCols ∧
      (tbl.rows.map Market.ticker).Nodup ∧
      (∀ t : String, tbl.rows.find? (fun r => r.ticker == t)
          = records.find? (fun r => r.ticker == t)) ∧
      replaceAll st records now = replaceAll st2 records now ∧
      (replaceAll st records now).lastRefresh = some now := by
  refine ⟨{ cols := canonicalCols, rows := newInserts Market.ticker [] records },
    ?_, rfl, ?_, ?_, rfl, rfl⟩
  · unfold replaceAll
    rw [foldl_insertOrIgnore]
    simp
  · exact nodup_keys_newInserts Market.ticker records []
  · intro t
    show (newInserts Market.ticker [] records).find? (fun r => r.ticker == t)
        = records.find? (fun r => r.ticker == t)
    rw [find?_eq_head?_filter]
    rw [filter_newInserts Market.ticker records [] t (by simp)]
    cases h : records.find? (fun r => r.ticker == t) <;> simp [h]

/-- C7: archive leaves already-present rows untouched (the prior table
is a prefix of the result), returns exactly the number of rows actually
inserted — the number of distinct input tickers not already archived —
and a second call with the same record set returns 0. -/
theorem archive_count_untouched_idempotent (tbl df : List SelectedRow) :
    (∃ added, (archive tbl df).1 = tbl ++ added) ∧
    (archive tbl df).2 + tbl.length = (archive tbl df).1.length ∧
    (archive tbl df).2 =
      ((df.map SelectedRow.market_event_ticker).toFinset.filter
        (fun t => ¬ t ∈ tbl.map SelectedRow.market_event_ticker)).card ∧
    (archive (archive tbl df).1 df).2 = 0 := by
  have h1 := archive_table_eq tbl df
  refine ⟨⟨_, h1⟩, ?_, archive_count tbl df, ?_⟩
  · have hf := (archive_foldl df tbl 0).2
    have hup := foldl_insertOrIgnore SelectedRow.market_event_ticker df tbl
    show (archive tbl df).2 + tbl.length = (archive tbl df).1.length
    unfold archive
    rw [(archive_foldl df tbl 0).1]
    simpa using hf
  · have hall : ∀ r ∈ df, (archive tbl df).1.any
        (fun x => x.market_event_ticker == r.market_event_ticker) = true := by
      intro r hr
      rw [h1, List.any_append]
      rcases key_covered_newInserts SelectedRow.market_event_ticker df
          (tbl.map SelectedRow.market_event_ticker) r hr with h | h
      · have h2 : tbl.any (fun x => x.market_event_ticker == r.market_event_ticker) = true := by
          rw [← any_map_key]
          exact h
        rw [h2]
        rfl
      · rcases List.mem_map.mp h with ⟨x, hx, hkx⟩
        have h2 : (newInserts SelectedRow.market_event_ticker
            (tbl.map SelectedRow.market_event_ticker) df).any
            (fun x => x.market_event_ticker == r.market_event_ticker) = true :=
          List.any_eq_true.mpr ⟨x, hx, by simp [hkx]⟩
        rw [h2]
        simp
    show (df.foldl archiveStep ((archive tbl df).1, 0)).2 = 0
    rw [archive_all_present df (archive tbl df).1 0 hall]

/-- C10: within a single archive call whose input has several rows
sharing one previously absent ticker, exactly the first such row is
stored, and the returned count equals the number of distinct
previously-absent tickers in the input, not the number of input rows. -/
theorem archive_duplicate_tickers_single_insert (tbl df : List SelectedRow) (t : String)
    (h1 : ¬ t ∈ tbl.map SelectedRow.market_event_ticker)
    (h2 : 1 < (df.filter (fun r => r.market_event_ticker == t)).length) :
    (archive tbl df).1.filter (fun r => r.market_event_ticker == t)
      = (df.find? (fun r => r.market_event_ticker == t)).toList ∧
    ((archive tbl df).1.filter (fun r => r.market_event_ticker == t)).length = 1 ∧
    (archive tbl df).2 =
      ((df.map SelectedRow.market_event_ticker).toFinset.filter
        (fun s => ¬ s ∈ tbl.map SelectedRow.market_event_ticker)).card := by
  have hseen : (tbl.map SelectedRow.market_event_ticker).any (fun s => s == t) = false := by
    cases hsa : (tbl.map SelectedRow.market_event_ticker).any (fun s => s == t) with
    | false => rfl
    | true => exact absurd ((any_beq_iff_mem _ _).mp hsa) h1
  have hfil : (archive tbl df).1.filter (fun r => r.market_event_ticker == t)
      = (df.find? (fun r => r.market_event_ticker == t)).toList := by
    rw [archive_table_eq tbl df, List.filter_append]
    rw [show tbl.filter (fun r => r.market_event_ticker == t) = [] by
      rw [List.filter_eq_nil_iff]
      intro x hx hbeq
      exact h1 (List.mem_map.mpr ⟨x, hx, by simpa using hbeq⟩)]
    rw [filter_newInserts SelectedRow.market_event_ticker df
      (tbl.map SelectedRow.market_event_ticker) t hseen]
    rfl
  refine ⟨hfil, ?_, archive_count tbl df⟩
  rw [hfil]
  cases hfind : df.find? (fun r => r.market_event_ticker == t) with
  | some r => rfl
  | none =>
    rw [find?_eq_head?_filter] at hfind
    cases hf2 : df.filter (fun r => r.market_event_ticker == t) with
    | nil => rw [hf2] at h2; simp at h2
    | cons a l => rw [hf2] at hfind; simp at hfind

/-- Rows sharing the ticker "TK" for the C10 witness. -/
def dupRowA : SelectedRow :=
  { title := "t1", sub_title := "s1", market_event_ticker := "TK",
    event_title := "e1", market_rules_primary := "r1", category := "c1" }

/-- Second row sharing the ticker "TK" for the C10 witness. -/
def dupRowB : SelectedRow :=
  { title := "t2", sub_title := "s2", market_event_ticker := "TK",
    event_title := "e2", market_rules_primary := "r2", category := "c2" }

/-- Witness for C10: archiving two rows with the same fresh ticker into
an empty archive stores exactly one row for it. -/
theorem archive_duplicate_tickers_single_insert_witness :
    (¬ "TK" ∈ ([] : List SelectedRow).map SelectedRow.market_event_ticker) ∧
    1 < (([dupRowA, dupRowB]).filter (fun r => r.market_event_ticker == "TK")).length ∧
    ((archive [] [dupRowA, dupRowB]).1.filter
      (fun r => r.market_event_ticker == "TK")).length = 1 :=
  ⟨by decide, by decide,
    (archive_duplicate_tickers_single_insert [] [dupRowA, dupRowB] "TK"
      (by decide) (by decide)).2.1⟩

/-- C8: a cache state can pass the schema adequacy check (all five
required columns present) yet make `fetch_markets` fail, because the
read SELECT also references title, event_ticker, rules_primary and
category — columns the check does not require and therefore does not
force a rebuild to restore.  `stRequiredOnly` is such a state: in normal
mode, fresh, no fetch is triggered and the SELECT fails. -/
theorem schema_check_does_not_cover_read_columns :
    schemaOk stRequiredOnly = true ∧
    (refreshMarketsIfNeeded 0 stRequiredOnly [] (fun _ => Except.error ()) 3600).fetched
        = false ∧
    fetchMarkets 0 stRequiredOnly [] (fun _ => Except.error ()) 3600
        = Except.error FetchError.missingColumn ∧
    "title" ∈ displaySelectCols ∧ ¬ "title" ∈ requiredCols ∧
    "event_ticker" ∈ displaySelectCols ∧ ¬ "event_ticker" ∈ requiredCols ∧
    "rules_primary" ∈ displaySelectCols ∧ ¬ "rules_primary" ∈ requiredCols ∧
    "category" ∈ displaySelectCols ∧ ¬ "category" ∈ requiredCols :=
  ⟨rfl, rfl, rfl, by decide, by decide, by decide, by decide, by decide, by decide,
    by decide, by decide⟩

/-- Markets whose only series key is "A", for the enrichment failure
scenario. -/
def marketsSeriesA : List Market :=
  [{ ticker := "T1", event_ticker := some "A-1", category := "" }]

/-- A series oracle that fails on series "A" and succeeds elsewhere. -/
def oracleFailA : SeriesOracle :=
  fun s => if s == "A" then Except.error () else Except.ok "Politics"

/-- C3 (code bug): when the very first series lookup of the enrichment
loop fails, the `if count == 1` debug log references the never-assigned
`category_val`, so a `NameError` propagates out of the refresh instead
of the failure being tolerated; the refresh aborts (leaving the prior
snapshot) rather than producing records with an empty category. -/
theorem first_series_lookup_failure_propagates :
    enrichAll marketsSeriesA oracleFailA = Except.error () ∧
    fetchAndRebuild stRequiredOnly
        [Except.ok { markets := marketsSeriesA, cursor := none }] oracleFailA 0
      = (stRequiredOnly, some RefreshError.nameError) ∧
    (∀ s rest, seriesLookupAll oracleFailA (s :: rest)
        = Except.error () → oracleFailA s = Except.error ()) :=
  ⟨rfl, rfl, by
    intro s rest h
    cases ho : oracleFailA s with
    | error e => rfl
    | ok c =>
      rw [seriesLookupAll, ho] at h
      exact Except.noConfusion h⟩

end KalshiDB
